import Mathlib

/-!
Verification of the core networking and session subsystem of the
BobbyShrd/gominetest Minecraft Bedrock server.

The development shallowly embeds the Go source:

* `MinecraftPacketBatch.encrypt` / `MinecraftPacketBatch.decrypt` and the
  byte-at-a-time CFB discipline with a rolling IV (net/minecraft_packet_batch);
* `MinecraftPacketBatch.Decode`, the inbound batch pipeline (marker byte,
  optional decryption, zlib inflation, length-prefixed record splitting,
  packet fetching);
* `VerifyLoginRequest` and the login handler built by `NewLoginHandler`
  (handlers file);
* `SessionManager.AddMinecraftSession` / `RemoveMinecraftSession` and the four
  key indices (net/session_manager);
* `Player.Tick` with its value receiver over a pointer-embedded entity
  (players/player.go).

Bytes are modelled as `Nat` (values below 256 on all concrete inputs); the AES
block primitive, the ECDSA verification primitive and the x509/base64 public
key parser are external library calls in the source and are therefore
parameters of the embedding.  Go maps are modelled as association lists with
overwrite-on-insert semantics.
-/

/-! ## Byte-at-a-time CFB cipher (net/minecraft_packet_batch.go, encrypt/decrypt)

The source instantiates, for every single byte, a fresh CFB stream over the
stored IV (`cipher.NewCFBEncrypter(block, iv)` used for exactly one byte).
For a one-byte use of CFB the produced keystream byte is the first byte of
the block cipher applied to the IV.  `block` abstracts the AES cipher held in
`EncryptCipher` / `DecryptCipher`. -/

/-- First keystream byte of a CFB stream over `iv`: head of `block iv`.
Models the single-byte `XORKeyStream` call of the source. -/
def cfbKeystreamByte (block : List Nat → List Nat) (iv : List Nat) : Nat :=
  (block iv).headD 0

/-- The rolling-IV update of the source: `iv = append(iv[1:], b)` where `b`
is the consumed ciphertext byte. -/
def rollIV (iv : List Nat) (b : Nat) : List Nat :=
  iv.drop 1 ++ [b]

/-- The encryption loop of `MinecraftPacketBatch.encrypt`: for each byte a
fresh CFB stream over the stored IV encrypts one byte, then the IV shifts
left by one byte and the produced ciphertext byte is appended. -/
def cfbEncryptBytes (block : List Nat → List Nat) : List Nat → List Nat → List Nat
  | _, [] => []
  | iv, p :: rest =>
    let c := p ^^^ cfbKeystreamByte block iv
    c :: cfbEncryptBytes block (rollIV iv c) rest

/-- The decryption loop of `MinecraftPacketBatch.decrypt`: for each byte a
fresh CFB stream over the stored IV decrypts one byte, then the IV shifts
left by one byte and the consumed ciphertext byte is appended. -/
def cfbDecryptBytes (block : List Nat → List Nat) : List Nat → List Nat → List Nat
  | _, [] => []
  | iv, c :: rest =>
    (c ^^^ cfbKeystreamByte block iv) :: cfbDecryptBytes block (rollIV iv c) rest

/-- `MinecraftPacketBatch.encrypt`: appends the 8-byte send checksum computed
by the session encryption handler (`ComputeSendChecksum`, external to the
embedded file and abstracted as `checksum`) to the body, then applies the
byte-at-a-time CFB encryption over the stored send IV. -/
def MinecraftPacketBatch.encrypt (checksum : List Nat → List Nat)
    (block : List Nat → List Nat) (iv : List Nat) (d : List Nat) : List Nat :=
  cfbEncryptBytes block iv (d ++ checksum d)

/-- `MinecraftPacketBatch.decrypt`: applies the byte-at-a-time CFB decryption
over the stored receive IV.  Note that the source performs no validation of
any kind here: every input is decrypted and accepted. -/
def MinecraftPacketBatch.decrypt (block : List Nat → List Nat)
    (iv : List Nat) (raw : List Nat) : List Nat :=
  cfbDecryptBytes block iv raw

theorem cfbDecryptBytes_cfbEncryptBytes (block : List Nat → List Nat) :
    ∀ (iv p : List Nat), cfbDecryptBytes block iv (cfbEncryptBytes block iv p) = p := by
  intro iv p
  induction p generalizing iv with
  | nil => rfl
  | cons b rest ih =>
    simp only [cfbEncryptBytes, cfbDecryptBytes]
    rw [Nat.xor_assoc, Nat.xor_self, Nat.xor_zero]
    exact congrArg _ (ih _)

/-- C4: for every plaintext buffer `d` (in particular of lengths 1, 15, 16,
17 and 1024), encrypting with the batch cipher and then decrypting with the
same initial block cipher and IV on both sides recovers the plaintext: the
first `d.length` bytes of the decryption of the encryption of `d` are `d`,
where both directions process one byte at a time with a fresh CFB stream over
the stored IV and then roll the IV by the ciphertext byte. -/
theorem c4_cfb_rolling_iv_roundtrip (checksum block : List Nat → List Nat)
    (iv d : List Nat) :
    (MinecraftPacketBatch.decrypt block iv
      (MinecraftPacketBatch.encrypt checksum block iv d)).take d.length = d := by
  unfold MinecraftPacketBatch.decrypt MinecraftPacketBatch.encrypt
  rw [cfbDecryptBytes_cfbEncryptBytes]
  exact List.take_left d (checksum d)

/-! ## Inbound batch decoding (net/minecraft_packet_batch.go, Decode)

`Decode` consumes the marker byte, optionally decrypts, inflates with zlib,
splits the result into length-prefixed records and fetches the registered
packets.  Any panic in the pipeline is swallowed by the deferred `recover`,
and any reported error drops the batch; in the embedding every such exit
yields the empty packet list.

The zlib inflater and the binutils stream are external libraries.  The
binutils length-prefixed records (an unsigned varint length followed by that
many bytes) are modelled directly; out-of-range reads, which panic in Go and
are caught by the `recover`, are modelled as `none`.  The zlib inflater is a
parameter of `Decode`; the reference instantiation `zlibInflate` below models
RFC 1950/1951 streams made of stored (uncompressed) deflate blocks, with the
header and Adler-32 checks performed by the Go reader, and like the Go reader
it ignores any bytes that follow the final block and its Adler-32 trailer. -/

/-- Reads exactly `n` bytes from the front of a buffer, returning them and
the remainder, or `none` when fewer than `n` bytes remain (an out-of-range
slice, hence a panic, in Go). -/
def readN (n : Nat) (l : List Nat) : Option (List Nat × List Nat) :=
  if n ≤ l.length then some (l.take n, l.drop n) else none

/-- Unsigned varint decoding of the binutils stream: little-endian base-128
groups, at most five bytes, `none` on a truncated or overlong encoding. -/
def readUvarintAux : Nat → Nat → Nat → List Nat → Option (Nat × List Nat)
  | _, _, _, [] => none
  | 0, _, _, _ :: _ => none
  | fuel + 1, shift, acc, b :: rest =>
    let acc2 := acc + b % 128 * 2 ^ shift
    if b < 128 then some (acc2, rest) else readUvarintAux fuel (shift + 7) acc2 rest

/-- Reads one unsigned varint from the front of the buffer. -/
def readUvarint (l : List Nat) : Option (Nat × List Nat) :=
  readUvarintAux 5 0 0 l

/-- The record-splitting loop of `Decode`: repeatedly read a length-prefixed
byte record (`GetLengthPrefixedBytes`) until end of buffer.  A truncated
varint or a length running past the end of the buffer panics in Go and is
recovered, producing no packets; both are modelled as `none`.  Each
iteration consumes at least one byte, so fuel equal to the buffer length
suffices. -/
def splitRecordsAux : Nat → List Nat → Option (List (List Nat))
  | _, [] => some []
  | 0, _ :: _ => none
  | fuel + 1, a :: l =>
    (readUvarint (a :: l)).bind fun p1 =>
    (readN p1.1 p1.2).bind fun p2 =>
    (splitRecordsAux fuel p2.2).bind fun recs =>
    some (p2.1 :: recs)

/-- Splits a buffer into its length-prefixed records. -/
def splitRecords (l : List Nat) : Option (List (List Nat)) :=
  splitRecordsAux l.length l

/-- Adler-32 checksum (RFC 1950) of a byte list. -/
def adler32 (l : List Nat) : Nat :=
  let p := l.foldl (fun ab x => ((ab.1 + x) % 65521, (ab.2 + ab.1 + x) % 65521)) (1, 0)
  p.2 * 65536 + p.1

/-- Parses a sequence of deflate blocks, all of stored (uncompressed) type:
one header byte carrying BFINAL and BTYPE, a little-endian length and its
complement, then the raw bytes.  Returns the concatenated block contents and
the unconsumed remainder of the buffer.  Compressed block types are outside
this model.  Each block consumes at least one byte, so fuel equal to the
buffer length suffices. -/
def parseStoredBlocks : Nat → List Nat → Option (List Nat × List Nat)
  | _, [] => none
  | 0, _ :: _ => none
  | fuel + 1, b :: r =>
    if b / 2 % 4 = 0 then
      (readN 2 r).bind fun p1 =>
      (readN 2 p1.2).bind fun p2 =>
      if p2.1.getD 0 0 + 256 * p2.1.getD 1 0
          = 65535 - (p1.1.getD 0 0 + 256 * p1.1.getD 1 0) then
        (readN (p1.1.getD 0 0 + 256 * p1.1.getD 1 0) p2.2).bind fun p3 =>
        if b % 2 = 1 then some (p3.1, p3.2)
        else
          (parseStoredBlocks fuel p3.2).bind fun p4 =>
          some (p3.1 ++ p4.1, p4.2)
      else none
    else none

/-- Checks the two-byte zlib header: compression method 8, valid header
checksum, no preset dictionary. -/
def zlibHeaderOk (cmf flg : Nat) : Bool :=
  cmf % 16 = 8 && (cmf * 256 + flg) % 31 = 0 && flg / 32 % 2 = 0

/-- Parses a zlib stream of stored deflate blocks: header, blocks, Adler-32
trailer (big-endian, checked against the inflated output).  Returns the
inflated bytes and the unconsumed remainder, which the Go reader never looks
at. -/
def zlibParse (l : List Nat) : Option (List Nat × List Nat) :=
  match l with
  | cmf :: flg :: r =>
    if zlibHeaderOk cmf flg then
      (parseStoredBlocks r.length r).bind fun p1 =>
      (readN 4 p1.2).bind fun p2 =>
      if p2.1.getD 0 0 * 16777216 + p2.1.getD 1 0 * 65536 + p2.1.getD 2 0 * 256
          + p2.1.getD 3 0 = adler32 p1.1 then
        some (p1.1, p2.2)
      else none
    else none
  | _ => none

/-- Reference zlib inflater used to instantiate `Decode`: the inflated bytes
of a well-formed stream, `none` on a malformed one. -/
def zlibInflate (l : List Nat) : Option (List Nat) :=
  (zlibParse l).map Prod.fst

/-- `fetchPackets`: keeps the records that are non-empty and whose first
byte is a registered packet ID, in order; empty records and unknown IDs are
skipped without aborting the batch. -/
def MinecraftPacketBatch.fetchPackets (isRegistered : Nat → Bool)
    (packetData : List (List Nat)) : List (List Nat) :=
  packetData.filter (fun d => !d.isEmpty && isRegistered (d.headD 0))

/-- `MinecraftPacketBatch.Decode`: consume one byte and stop silently unless
it is 0xFE; decrypt the remainder in place when the session uses encryption;
inflate with zlib, dropping the batch on error; split into length-prefixed
records (a panic drops the batch with no packets, by the deferred recover);
fetch the registered packets.  The function is total: no error or panic
reaches the caller. -/
def MinecraftPacketBatch.Decode (needsEncryption : Bool)
    (block : List Nat → List Nat) (iv : List Nat)
    (inflate : List Nat → Option (List Nat)) (isRegistered : Nat → Bool)
    (buffer : List Nat) : List (List Nat) :=
  match buffer with
  | [] => []
  | b :: body =>
    if b ≠ 0xFE then []
    else
      let raw := if needsEncryption then MinecraftPacketBatch.decrypt block iv body else body
      match inflate raw with
      | none => []
      | some plain =>
        match splitRecords plain with
        | none => []
        | some recs => MinecraftPacketBatch.fetchPackets isRegistered recs

/-- C9: for every malformed inbound frame — a first byte other than 0xFE (or
an empty buffer, whose read panics and is recovered), a body whose inflation
fails, or a body whose length-prefixed records are truncated — `Decode`
drops the batch and yields no packets; being a total function, it
propagates no error or panic to the caller. -/
theorem c9_malformed_frame_dropped (needsEncryption : Bool)
    (block : List Nat → List Nat) (iv : List Nat)
    (inflate : List Nat → Option (List Nat)) (isRegistered : Nat → Bool)
    (buffer : List Nat)
    (h : buffer.head? ≠ some 0xFE
      ∨ inflate (if needsEncryption then
          MinecraftPacketBatch.decrypt block iv buffer.tail else buffer.tail) = none
      ∨ ∃ plain, inflate (if needsEncryption then
          MinecraftPacketBatch.decrypt block iv buffer.tail else buffer.tail) = some plain
          ∧ splitRecords plain = none) :
    MinecraftPacketBatch.Decode needsEncryption block iv inflate isRegistered buffer = [] := by
  match buffer with
  | [] => rfl
  | b :: body =>
    simp only [List.head?_cons, List.tail_cons] at h
    unfold MinecraftPacketBatch.Decode
    by_cases hb : b = 0xFE
    · subst hb
      simp only [ne_eq, not_true_eq_false, reduceIte]
      rcases h with h | h | ⟨plain, h1, h2⟩
      · exact absurd rfl h
      · simp only [h]
      · simp only [h1, h2]
    · simp [hb]

/-- Witness for `c9_malformed_frame_dropped`: a one-byte frame whose marker
is not 0xFE decodes to no packets. -/
theorem c9_malformed_frame_dropped_witness :
    ([0] : List Nat).head? ≠ some 0xFE
    ∧ MinecraftPacketBatch.Decode false (fun l => l) [] zlibInflate (fun _ => true) [0] = [] :=
  ⟨by decide,
   c9_malformed_frame_dropped false (fun l => l) [] zlibInflate (fun _ => true) [0]
     (Or.inl (by decide))⟩

/-! ## C1: the trailing checksum suffix is never validated on receive

`MinecraftPacketBatch.decrypt` performs no validation: it decrypts every
byte and returns.  The only integrity check an inbound encrypted batch meets
is the Adler-32 check inside the zlib stream, which covers the compressed
body but not the trailing 8 checksum bytes that `encrypt` appends after the
compressed data; the zlib reader stops at the end of the deflate stream and
never reads them.  The lemmas below show the zlib parser is insensitive to
trailing bytes; the theorems exhibit the consequence: any value of the
8-byte suffix decodes successfully to the same packets, so a bit flip there
is silently accepted rather than reported as a checksum failure. -/

theorem readN_append {n : Nat} {l e a r : List Nat} (h : readN n l = some (a, r)) :
    readN n (l ++ e) = some (a, r ++ e) := by
  unfold readN at h ⊢
  split at h
  · rename_i hle
    simp only [Option.some.injEq, Prod.mk.injEq] at h
    obtain ⟨ha, hr⟩ := h
    subst ha; subst hr
    have hle2 : n ≤ (l ++ e).length := by
      rw [List.length_append]; omega
    rw [if_pos hle2, List.take_append_of_le_length hle, List.drop_append_of_le_length hle]
  · exact Option.noConfusion h

theorem parseStoredBlocks_append : ∀ {fuel : Nat} {l e out rest : List Nat},
    parseStoredBlocks fuel l = some (out, rest) →
    parseStoredBlocks fuel (l ++ e) = some (out, rest ++ e) := by
  intro fuel
  induction fuel with
  | zero =>
    intro l e out rest h
    match l with
    | [] => exact Option.noConfusion h
    | b :: r => exact Option.noConfusion h
  | succ f ih =>
    intro l e out rest h
    match l with
    | [] => exact Option.noConfusion h
    | b :: r =>
      rw [List.cons_append]
      unfold parseStoredBlocks at h ⊢
      split at h
      · rename_i htype
        rw [if_pos htype]
        rcases h1 : readN 2 r with _ | ⟨lenB, r1⟩
        · rw [h1] at h; exact Option.noConfusion h
        · rw [h1, Option.some_bind] at h
          rw [readN_append h1, Option.some_bind]
          rcases h2 : readN 2 r1 with _ | ⟨nlenB, r2⟩
          · rw [h2] at h; exact Option.noConfusion h
          · rw [h2, Option.some_bind] at h
            rw [readN_append h2, Option.some_bind]
            split at h
            · rename_i hnlen
              rw [if_pos hnlen]
              rcases h3 : readN (lenB.getD 0 0 + 256 * lenB.getD 1 0) r2 with _ | ⟨dat, r3⟩
              · rw [h3] at h; exact Option.noConfusion h
              · rw [h3, Option.some_bind] at h
                rw [readN_append h3, Option.some_bind]
                split at h
                · rename_i hfin
                  rw [if_pos hfin]
                  simp only [Option.some.injEq, Prod.mk.injEq] at h
                  obtain ⟨hd, hr⟩ := h
                  subst hd; subst hr
                  rfl
                · rename_i hfin
                  rw [if_neg hfin]
                  rcases h4 : parseStoredBlocks f r3 with _ | ⟨dat2, r4⟩
                  · rw [h4] at h; exact Option.noConfusion h
                  · rw [h4, Option.some_bind] at h
                    rw [ih h4, Option.some_bind]
                    simp only [Option.some.injEq, Prod.mk.injEq] at h
                    obtain ⟨hd, hr⟩ := h
                    subst hd; subst hr
                    rfl
            · exact Option.noConfusion h
      · exact Option.noConfusion h

theorem parseStoredBlocks_fuel_mono : ∀ {fuel gas : Nat} {l out rest : List Nat},
    fuel ≤ gas → parseStoredBlocks fuel l = some (out, rest) →
    parseStoredBlocks gas l = some (out, rest) := by
  intro fuel
  induction fuel with
  | zero =>
    intro gas l out rest _ h
    match l with
    | [] => exact Option.noConfusion h
    | b :: r => exact Option.noConfusion h
  | succ f ih =>
    intro gas l out rest hle h
    match l with
    | [] => exact Option.noConfusion h
    | b :: r =>
      match gas, hle with
      | g + 1, hle =>
        have hfg : f ≤ g := Nat.succ_le_succ_iff.mp hle
        unfold parseStoredBlocks at h ⊢
        split at h
        · rename_i htype
          rw [if_pos htype]
          rcases h1 : readN 2 r with _ | ⟨lenB, r1⟩
          · rw [h1] at h; exact Option.noConfusion h
          · rw [h1, Option.some_bind] at h
            rw [Option.some_bind]
            rcases h2 : readN 2 r1 with _ | ⟨nlenB, r2⟩
            · rw [h2] at h; exact Option.noConfusion h
            · rw [h2, Option.some_bind] at h
              rw [Option.some_bind]
              split at h
              · rename_i hnlen
                rw [if_pos hnlen]
                rcases h3 : readN (lenB.getD 0 0 + 256 * lenB.getD 1 0) r2 with _ | ⟨dat, r3⟩
                · rw [h3] at h; exact Option.noConfusion h
                · rw [h3, Option.some_bind] at h
                  rw [Option.some_bind]
                  split at h
                  · rename_i hfin
                    rw [if_pos hfin]
                    exact h
                  · rename_i hfin
                    rw [if_neg hfin]
                    rcases h4 : parseStoredBlocks f r3 with _ | ⟨dat2, r4⟩
                    · rw [h4] at h; exact Option.noConfusion h
                    · rw [h4, Option.some_bind] at h
                      rw [ih hfg h4, Option.some_bind]
                      exact h
              · exact Option.noConfusion h
        · exact Option.noConfusion h

/-- A concrete compressed batch body: a zlib stream (stored deflate block)
whose inflated content is the single length-prefixed record `[2, 9, 1]`,
i.e. one packet with ID 9 and payload byte 1. -/
def sampleZlibBody : List Nat :=
  [0x78, 0x01, 0x01, 0x03, 0x00, 0xFC, 0xFF, 0x02, 0x09, 0x01, 0x00, 0x1C, 0x00, 0x0D]

set_option maxRecDepth 4096 in
theorem zlibParse_sampleZlibBody (c : List Nat) :
    zlibParse (sampleZlibBody ++ c) = some ([2, 9, 1], c) := by
  have hbase : parseStoredBlocks 12 [1, 3, 0, 252, 255, 2, 9, 1, 0, 28, 0, 13]
      = some ([2, 9, 1], [0, 28, 0, 13]) := by decide
  have happ := parseStoredBlocks_append (e := c) hbase
  have hlen : 12 ≤ ([1, 3, 0, 252, 255, 2, 9, 1, 0, 28, 0, 13] ++ c).length := by
    rw [List.length_append]; simp
  have hfuel := parseStoredBlocks_fuel_mono hlen happ
  have hread : readN 4 ([0, 28, 0, 13] ++ c) = some ([0, 28, 0, 13], [] ++ c) :=
    readN_append (by decide)
  rw [List.nil_append] at hread
  simp only [List.cons_append, List.nil_append] at hread
  simp only [List.cons_append, List.nil_append] at hfuel
  simp only [sampleZlibBody, List.cons_append, List.nil_append, zlibParse]
  rw [if_pos (by decide : zlibHeaderOk 120 1 = true), hfuel, Option.some_bind]
  simp only []
  rw [hread, Option.some_bind]
  simp only []
  split
  · rfl
  · rename_i hcond
    exact absurd (by decide) hcond

theorem zlibInflate_sampleZlibBody (c : List Nat) :
    zlibInflate (sampleZlibBody ++ c) = some [2, 9, 1] := by
  unfold zlibInflate
  rw [zlibParse_sampleZlibBody]
  rfl

/-- C1 (amended): inbound decryption performs no checksum validation.  For
every block cipher, every receive IV and every value `c` of the trailing
8-byte checksum suffix, decoding the encrypted batch built from the sample
compressed body and suffix `c` succeeds and yields the same packets —
so altering the suffix (in particular flipping any of its bits) is silently
accepted, not reported as a checksum failure. -/
theorem c1_checksum_suffix_not_validated (block : List Nat → List Nat)
    (iv c : List Nat) (_hc : c.length = 8) :
    MinecraftPacketBatch.Decode true block iv zlibInflate (fun _ => true)
      (0xFE :: MinecraftPacketBatch.encrypt (fun _ => c) block iv sampleZlibBody)
      = [[9, 1]] := by
  simp only [MinecraftPacketBatch.Decode, MinecraftPacketBatch.encrypt,
    MinecraftPacketBatch.decrypt, ne_eq, not_true_eq_false, reduceIte,
    cfbDecryptBytes_cfbEncryptBytes, zlibInflate_sampleZlibBody]
  decide

/-- Witness for `c1_checksum_suffix_not_validated` at the identity block
cipher, the all-zero IV and the all-zero suffix. -/
theorem c1_checksum_suffix_not_validated_witness :
    (List.replicate 8 0 : List Nat).length = 8
    ∧ MinecraftPacketBatch.Decode true (fun l => l) (List.replicate 16 0) zlibInflate
        (fun _ => true)
        (0xFE :: MinecraftPacketBatch.encrypt (fun _ => List.replicate 8 0) (fun l => l)
          (List.replicate 16 0) sampleZlibBody) = [[9, 1]] :=
  ⟨by decide,
   c1_checksum_suffix_not_validated (fun l => l) (List.replicate 16 0)
     (List.replicate 8 0) (by decide)⟩

/-- The identity block cipher used for the concrete C1 batch. -/
def c1Block : List Nat → List Nat := fun l => l

/-- A concrete valid encrypted batch: marker byte, then the CFB encryption
of the sample compressed body followed by its 8-byte checksum suffix, as
produced by the outbound `encrypt`. -/
def c1ValidBatch : List Nat :=
  0xFE :: MinecraftPacketBatch.encrypt (fun _ => List.replicate 8 0) c1Block
    (List.replicate 16 0) sampleZlibBody

/-- Flips the lowest bit of byte `i` of a buffer. -/
def flipBitAt (i : Nat) (l : List Nat) : List Nat :=
  l.set i (l.getD i 0 ^^^ 1)

/-- Counterexample to C1 as stated: `c1ValidBatch` is a valid encrypted
batch (it decodes to the packet list `[[9, 1]]`), yet flipping a single bit
of its encrypted body — the low bit of its last byte, inside the 8-byte
checksum suffix — produces a batch that decodes to the very same packets:
the flip is silently accepted, and no checksum failure is reported or batch
dropped. -/
theorem c1_counterexample :
    MinecraftPacketBatch.Decode true c1Block (List.replicate 16 0) zlibInflate
      (fun _ => true) c1ValidBatch = [[9, 1]]
    ∧ flipBitAt 22 c1ValidBatch ≠ c1ValidBatch
    ∧ MinecraftPacketBatch.Decode true c1Block (List.replicate 16 0) zlibInflate
      (fun _ => true) (flipBitAt 22 c1ValidBatch) = [[9, 1]] := by
  decide

/-! ## Login chain verification (handlers file, VerifyLoginRequest)

A chain token carries a header (its `X5u` public-key hint and raw bytes), a
payload (raw bytes, `ExpirationTime`, `NotBefore`, `IssuedAt`, and the
`IdentityPublicKey` advancing to the next token) and a signature.  The
base64/x509 public-key parsing (`x509.ParsePKIXPublicKey` after
`base64.RawStdEncoding.DecodeString`) is abstracted as
`parseKey : String → Option String` (parsed keys are represented by
strings), and the ECDSA-P384-SHA384 verification as
`ecdsaVerify : key → signedData → signature → Bool`; both are external
library primitives in the source.  Timestamps are `Int` seconds. -/

structure Chain where
  headerX5u : String
  headerRaw : String
  payloadRaw : String
  payloadExpirationTime : Int
  payloadNotBefore : Int
  payloadIssuedAt : Int
  payloadIdentityPublicKey : String
  signature : String
deriving DecidableEq

/-- The time-window rejection condition of `VerifyLoginRequest`:
`chain.Payload.ExpirationTime <= t && chain.Payload.ExpirationTime != 0 ||
chain.Payload.NotBefore > t || chain.Payload.IssuedAt >
chain.Payload.ExpirationTime`. -/
def chainTimeFails (now : Int) (c : Chain) : Prop :=
  (c.payloadExpirationTime ≤ now ∧ c.payloadExpirationTime ≠ 0)
  ∨ c.payloadNotBefore > now ∨ c.payloadIssuedAt > c.payloadExpirationTime

instance (now : Int) (c : Chain) : Decidable (chainTimeFails now c) := by
  unfold chainTimeFails
  infer_instance

/-- The loop of `VerifyLoginRequest`, threading the current verifying-key
string `publicKeyRaw` and the `authenticated` flag.  Every early `return`
of the source yields `(false, authenticated, none)` with the flag as
already accumulated (the named return values of Go). -/
def verifyChainLoop (parseKey : String → Option String)
    (ecdsaVerify : String → String → String → Bool)
    (mojangPublicKey : String) (now : Int) :
    String → Bool → List Chain → Bool × Bool × Option String
  | publicKeyRaw, authenticated, [] =>
    match parseKey publicKeyRaw with
    | none => (false, authenticated, none)
    | some key => (true, authenticated, some key)
  | publicKeyRaw, authenticated, chain :: rest =>
    if publicKeyRaw = "" ∧ chain.headerX5u = "" then (false, authenticated, none)
    else
      match parseKey (if publicKeyRaw = "" then chain.headerX5u else publicKeyRaw) with
      | none => (false, authenticated, none)
      | some key =>
        if ecdsaVerify key (chain.headerRaw ++ "." ++ chain.payloadRaw) chain.signature then
          if chainTimeFails now chain then
            (false,
             if (if publicKeyRaw = "" then chain.headerX5u else publicKeyRaw)
                 = mojangPublicKey then true else authenticated,
             none)
          else
            verifyChainLoop parseKey ecdsaVerify mojangPublicKey now
              chain.payloadIdentityPublicKey
              (if (if publicKeyRaw = "" then chain.headerX5u else publicKeyRaw)
                  = mojangPublicKey then true else authenticated) rest
        else (false, authenticated, none)

/-- `VerifyLoginRequest`: walks the token chain starting from an empty
verifying-key string and a false `authenticated` flag, then parses the final
`IdentityPublicKey` as the client public key; returns
`(successful, authenticated, clientPublicKey)`. -/
def VerifyLoginRequest (parseKey : String → Option String)
    (ecdsaVerify : String → String → String → Bool)
    (mojangPublicKey : String) (now : Int) (chains : List Chain) :
    Bool × Bool × Option String :=
  verifyChainLoop parseKey ecdsaVerify mojangPublicKey now "" false chains

/-- C10: calling `VerifyLoginRequest` with an empty chain list returns
`successful = false`, `authenticated = false` and no client public key:
with no tokens processed the final verifying-key string is empty, and when
parsing the empty string fails (as x509 parsing of the empty decoding
does), the login is rejected rather than accepted without an identity. -/
theorem c10_empty_chain_rejected (parseKey : String → Option String)
    (ecdsaVerify : String → String → String → Bool)
    (mojangPublicKey : String) (now : Int)
    (h : parseKey "" = none) :
    VerifyLoginRequest parseKey ecdsaVerify mojangPublicKey now []
      = (false, false, none) := by
  unfold VerifyLoginRequest verifyChainLoop
  rw [h]

/-- Sample key parser: parsing fails exactly on the empty string. -/
def parseKeySample : String → Option String :=
  fun s => if s = "" then none else some s

/-- Sample signature verifier accepting everything. -/
def verifyAlways : String → String → String → Bool :=
  fun _ _ _ => true

/-- Witness for `c10_empty_chain_rejected` at the sample primitives. -/
theorem c10_empty_chain_rejected_witness :
    parseKeySample "" = none
    ∧ VerifyLoginRequest parseKeySample verifyAlways "MOJ" 100 [] = (false, false, none) :=
  ⟨by decide, c10_empty_chain_rejected parseKeySample verifyAlways "MOJ" 100 (by decide)⟩

/-! ## Session manager (net/session_manager.go)

Go maps are modelled as association lists with unique keys: insertion
removes any previous binding for the key and conses the new one; deletion
filters the key out; lookup scans for the key.  A Minecraft session is
modelled by its four index keys.  The getters `GetName`, `GetUUID`,
`GetXUID` and the transport handle printed by `fmt.Sprint(GetSession())`
live in session code outside the embedded files; modelled from the spec:
each live session is indexed under its name, UUID, XUID and transport
handle, and `RemoveMinecraftSession` removes the same four keys (the source
reads the name through `session.GetPlayer().GetName()`, which the login
path sets to the same username). -/

/-- Association-list lookup. -/
def alFind {α β : Type} [DecidableEq α] (k : α) : List (α × β) → Option β
  | [] => none
  | p :: rest => if p.1 = k then some p.2 else alFind k rest

/-- Association-list overwrite-insert (Go map assignment). -/
def alInsert {α β : Type} [DecidableEq α] (k : α) (v : β) (m : List (α × β)) :
    List (α × β) :=
  (k, v) :: m.filter (fun p => decide (p.1 ≠ k))

/-- Association-list delete (Go map delete). -/
def alErase {α β : Type} [DecidableEq α] (k : α) (m : List (α × β)) :
    List (α × β) :=
  m.filter (fun p => decide (p.1 ≠ k))

/-- The key view of a `MinecraftSession`: username, client UUID, client
XUID and transport (RakNet session) handle. -/
structure MSession where
  name : String
  uuid : Nat
  xuid : String
  transport : Nat
deriving DecidableEq

/-- `SessionManager`: the four indices of the source struct. -/
structure SessionManager where
  nameMap : List (String × MSession)
  uuidMap : List (Nat × MSession)
  xuidMap : List (String × MSession)
  sessionMap : List (Nat × MSession)
deriving DecidableEq

/-- `NewSessionManager`: all four indices empty. -/
def NewSessionManager : SessionManager := ⟨[], [], [], []⟩

/-- `AddMinecraftSession`: inserts the session into all four indices under
its name, UUID, XUID and transport keys. -/
def SessionManager.AddMinecraftSession (m : SessionManager) (s : MSession) :
    SessionManager :=
  ⟨alInsert s.name s m.nameMap, alInsert s.uuid s m.uuidMap,
   alInsert s.xuid s m.xuidMap, alInsert s.transport s m.sessionMap⟩

/-- `RemoveMinecraftSession`: deletes the session keys from all four
indices. -/
def SessionManager.RemoveMinecraftSession (m : SessionManager) (s : MSession) :
    SessionManager :=
  ⟨alErase s.name m.nameMap, alErase s.uuid m.uuidMap,
   alErase s.xuid m.xuidMap, alErase s.transport m.sessionMap⟩

/-- `GetSession`: lookup by username in the name index. -/
def SessionManager.GetSession (m : SessionManager) (name : String) : Option MSession :=
  alFind name m.nameMap

/-- `GetSessionCount`: the size of the name index. -/
def SessionManager.GetSessionCount (m : SessionManager) : Nat :=
  m.nameMap.length

/-! ## The login handler (handlers file, NewLoginHandler)

The handler closure receives a `LoginPacket` and a session; its effects on
the session (kick, data/player setters, handshake, play status) are
recorded as an ordered action list, and its effect on the server is the
returned session manager.  `info.LatestProtocol` and the configuration
flags are parameters.  `data.StatusLoginSuccess` is status 0. -/

/-- The fields of `bedrock.LoginPacket` consumed by the handler. -/
structure LoginPacket where
  Username : String
  Protocol : Int
  Chains : List Chain
  ClientUUID : Nat
  ClientXUID : String
  ClientId : Nat
  SkinId : String
  SkinData : List Nat
  CapeData : List Nat
  GeometryName : String
  GeometryData : String
  GameVersion : String
  Language : String
  DeviceOS : Int
deriving DecidableEq

/-- The server configuration flags consumed by the login handler. -/
structure ServerConfig where
  XBOXLiveAuth : Bool
  UseEncryption : Bool
  ForceResourcePacks : Bool
deriving DecidableEq

/-- The session-visible effects performed by the login handler, in program
order. -/
inductive SessionAction where
  | kick (reason : String) (hideReason : Bool) (priority : Bool)
  | logDebug
  | setData
  | setPlayer
  | setEncryptionData
  | setName (n : String)
  | setDisplayName (n : String)
  | setSkinId (s : String)
  | setSkinData
  | setCapeData
  | setGeometryName (g : String)
  | setGeometryData
  | setXboxLiveAuthenticated (b : Bool)
  | sendServerHandshake
  | enableEncryption
  | sendPlayStatus (status : Nat)
  | sendResourcePackInfo
deriving DecidableEq

/-- `data.StatusLoginSuccess`. -/
def statusLoginSuccess : Nat := 0

/-- Whether an action is a kick. -/
def SessionAction.isKick : SessionAction → Bool
  | .kick _ _ _ => true
  | _ => false

/-- The result of one login-handler invocation: the handled flag it
returns, the session actions it performed, and the resulting session
manager. -/
structure HandlerResult where
  handled : Bool
  actions : List SessionAction
  manager : SessionManager
deriving DecidableEq

/-- The session registered by `AddMinecraftSession` at the end of a
successful login: keyed by the packet username (set into the player by
`SetName`), client UUID, client XUID and the transport handle. -/
def mkLoginSession (transport : Nat) (pkt : LoginPacket) : MSession :=
  ⟨pkt.Username, pkt.ClientUUID, pkt.ClientXUID, transport⟩

/-- The `LoginPacket` branch of the handler built by `NewLoginHandler`:
duplicate-username check, protocol checks, chain verification, XBOX-Live
gate, then session setup, handshake or play status, and registration. -/
def loginHandler (parseKey : String → Option String)
    (ecdsaVerify : String → String → String → Bool)
    (mojangPublicKey : String) (now latestProtocol : Int)
    (cfg : ServerConfig) (manager : SessionManager) (transport : Nat)
    (pkt : LoginPacket) : HandlerResult :=
  match manager.GetSession pkt.Username with
  | some _ => ⟨false, [], manager⟩
  | none =>
    if latestProtocol < pkt.Protocol then
      ⟨false, [.kick "Outdated server." false true], manager⟩
    else if pkt.Protocol < latestProtocol then
      ⟨false, [.kick "Outdated client." false true], manager⟩
    else
      let res := VerifyLoginRequest parseKey ecdsaVerify mojangPublicKey now pkt.Chains
      if !res.1 then ⟨true, [.logDebug], manager⟩
      else
        let authenticated := res.2.1
        if !authenticated && cfg.XBOXLiveAuth then
          ⟨true, [.logDebug, .kick "XBOX Live account required." false false], manager⟩
        else
          ⟨true,
            [.logDebug, .setData, .setPlayer, .setEncryptionData,
             .setName pkt.Username, .setDisplayName pkt.Username,
             .setSkinId pkt.SkinId, .setSkinData, .setCapeData,
             .setGeometryName pkt.GeometryName, .setGeometryData,
             .setXboxLiveAuthenticated authenticated]
            ++ (if cfg.UseEncryption then [.sendServerHandshake, .enableEncryption]
                else [.sendPlayStatus statusLoginSuccess, .sendResourcePackInfo]),
            manager.AddMinecraftSession (mkLoginSession transport pkt)⟩

/-- Builds a sample login packet with given username, protocol and chain. -/
def mkSamplePacket (u : String) (proto : Int) (chains : List Chain) : LoginPacket :=
  ⟨u, proto, chains, 1, "xuid1", 2, "skin", [], [], "geo", "gd", "1.2", "en", 0⟩

/-- A sample server configuration: no XBOX-Live requirement, no
encryption. -/
def cfgSample : ServerConfig := ⟨false, false, false⟩

/-- The session of a connected player named Bob. -/
def sBob : MSession := ⟨"Bob", 1, "xBob", 7⟩

/-- A manager already holding the Bob session. -/
def managerWithBob : SessionManager := NewSessionManager.AddMinecraftSession sBob

/-- C6: a `LoginPacket` whose username already belongs to a session in the
manager is silently rejected: the handler performs no session action,
returns unhandled, leaves the manager (hence the original session and the
session count) unchanged. -/
theorem c6_duplicate_login_rejected (parseKey : String → Option String)
    (ecdsaVerify : String → String → String → Bool)
    (mojangPublicKey : String) (now latestProtocol : Int)
    (cfg : ServerConfig) (manager : SessionManager) (transport : Nat)
    (pkt : LoginPacket) (s : MSession)
    (h : manager.GetSession pkt.Username = some s) :
    loginHandler parseKey ecdsaVerify mojangPublicKey now latestProtocol cfg manager
        transport pkt = ⟨false, [], manager⟩
    ∧ (loginHandler parseKey ecdsaVerify mojangPublicKey now latestProtocol cfg manager
        transport pkt).manager.GetSession pkt.Username = some s
    ∧ (loginHandler parseKey ecdsaVerify mojangPublicKey now latestProtocol cfg manager
        transport pkt).manager.GetSessionCount = manager.GetSessionCount := by
  have h1 : loginHandler parseKey ecdsaVerify mojangPublicKey now latestProtocol cfg
      manager transport pkt = ⟨false, [], manager⟩ := by
    unfold loginHandler
    rw [h]
  exact ⟨h1, by rw [h1]; exact h, by rw [h1]⟩

/-- Witness for `c6_duplicate_login_rejected`: a second Bob login against a
manager already holding Bob is a no-op. -/
theorem c6_duplicate_login_rejected_witness :
    managerWithBob.GetSession (mkSamplePacket "Bob" 160 []).Username = some sBob
    ∧ loginHandler parseKeySample verifyAlways "MOJ" 100 160 cfgSample managerWithBob 9
        (mkSamplePacket "Bob" 160 []) = ⟨false, [], managerWithBob⟩ :=
  ⟨by decide,
   (c6_duplicate_login_rejected parseKeySample verifyAlways "MOJ" 100 160 cfgSample
     managerWithBob 9 (mkSamplePacket "Bob" 160 []) sBob (by decide)).1⟩

/-- C2 (amended): when chain verification fails (`VerifyLoginRequest`
returns `successful = false`) for a fresh username at the correct protocol,
the handler only logs at debug and reports the packet handled: no kick is
sent, no session is removed or added, and the client is left connected. -/
theorem c2_verification_failure_logged_not_kicked (parseKey : String → Option String)
    (ecdsaVerify : String → String → String → Bool)
    (mojangPublicKey : String) (now latestProtocol : Int)
    (cfg : ServerConfig) (manager : SessionManager) (transport : Nat)
    (pkt : LoginPacket)
    (hdup : manager.GetSession pkt.Username = none)
    (hproto : pkt.Protocol = latestProtocol)
    (hfail : (VerifyLoginRequest parseKey ecdsaVerify mojangPublicKey now pkt.Chains).1
      = false) :
    loginHandler parseKey ecdsaVerify mojangPublicKey now latestProtocol cfg manager
      transport pkt = ⟨true, [.logDebug], manager⟩ := by
  unfold loginHandler
  rw [hdup, hproto]
  simp only [lt_irrefl, if_false, hfail, Bool.not_false, if_true]

/-- Witness for `c2_verification_failure_logged_not_kicked`: an Alice login
with an empty chain (whose verification fails) is logged and left
unkicked. -/
theorem c2_verification_failure_logged_not_kicked_witness :
    NewSessionManager.GetSession (mkSamplePacket "Alice" 160 []).Username = none
    ∧ (VerifyLoginRequest parseKeySample verifyAlways "MOJ" 100
        (mkSamplePacket "Alice" 160 []).Chains).1 = false
    ∧ loginHandler parseKeySample verifyAlways "MOJ" 100 160 cfgSample NewSessionManager 9
        (mkSamplePacket "Alice" 160 []) = ⟨true, [.logDebug], NewSessionManager⟩ :=
  ⟨by decide, by decide,
   c2_verification_failure_logged_not_kicked parseKeySample verifyAlways "MOJ" 100 160
     cfgSample NewSessionManager 9 (mkSamplePacket "Alice" 160 []) (by decide) (by decide)
     (by decide)⟩

/-- Counterexample to C2 as stated: for a concrete login whose chain
verification fails (empty chain), the handler kicks nothing and changes no
state — the session is not kicked and not removed, and the client is left
connected, contradicting the claim that every chain-verification failure
produces a kick. -/
theorem c2_counterexample :
    (VerifyLoginRequest parseKeySample verifyAlways "MOJ" 100
      (mkSamplePacket "Alice" 160 []).Chains).1 = false
    ∧ ((loginHandler parseKeySample verifyAlways "MOJ" 100 160 cfgSample NewSessionManager 9
        (mkSamplePacket "Alice" 160 [])).actions.any SessionAction.isKick = false)
    ∧ (loginHandler parseKeySample verifyAlways "MOJ" 100 160 cfgSample NewSessionManager 9
        (mkSamplePacket "Alice" 160 [])).manager = NewSessionManager
    ∧ (loginHandler parseKeySample verifyAlways "MOJ" 100 160 cfgSample NewSessionManager 9
        (mkSamplePacket "Alice" 160 [])).handled = true := by
  decide

/-- C5 (amended): for a `LoginPacket` whose username is not already
connected and whose protocol differs from `LatestProtocol`, the session is
kicked — "Outdated server." when the client protocol is greater, "Outdated
client." when smaller — and no session is added. -/
theorem c5_protocol_mismatch_kick (parseKey : String → Option String)
    (ecdsaVerify : String → String → String → Bool)
    (mojangPublicKey : String) (now latestProtocol : Int)
    (cfg : ServerConfig) (manager : SessionManager) (transport : Nat)
    (pkt : LoginPacket)
    (hdup : manager.GetSession pkt.Username = none)
    (hne : pkt.Protocol ≠ latestProtocol) :
    loginHandler parseKey ecdsaVerify mojangPublicKey now latestProtocol cfg manager
      transport pkt
      = ⟨false,
         [.kick (if latestProtocol < pkt.Protocol then "Outdated server."
                 else "Outdated client.") false true],
         manager⟩ := by
  unfold loginHandler
  rw [hdup]
  rcases lt_trichotomy latestProtocol pkt.Protocol with hlt | heq | hgt
  · rw [if_pos hlt, if_pos hlt]
  · exact absurd heq.symm hne
  · rw [if_neg (by omega : ¬ latestProtocol < pkt.Protocol), if_pos hgt,
      if_neg (by omega : ¬ latestProtocol < pkt.Protocol)]

/-- Witness for `c5_protocol_mismatch_kick`: a fresh Alice login with
protocol one above the latest is kicked with "Outdated server.". -/
theorem c5_protocol_mismatch_kick_witness :
    NewSessionManager.GetSession (mkSamplePacket "Alice" 161 []).Username = none
    ∧ (mkSamplePacket "Alice" 161 []).Protocol ≠ 160
    ∧ loginHandler parseKeySample verifyAlways "MOJ" 100 160 cfgSample NewSessionManager 9
        (mkSamplePacket "Alice" 161 [])
        = ⟨false, [.kick "Outdated server." false true], NewSessionManager⟩ :=
  ⟨by decide, by decide, by
    have h := c5_protocol_mismatch_kick parseKeySample verifyAlways "MOJ" 100 160
      cfgSample NewSessionManager 9 (mkSamplePacket "Alice" 161 []) (by decide) (by decide)
    rw [h]
    decide⟩

/-- Counterexample to C5 as stated: a `LoginPacket` with a mismatched
protocol whose username already belongs to a connected session is silently
rejected by the duplicate check before the protocol check runs — no kick is
performed, contradicting the claim that every protocol mismatch is
kicked. -/
theorem c5_counterexample :
    managerWithBob.GetSession (mkSamplePacket "Bob" 161 []).Username = some sBob
    ∧ (mkSamplePacket "Bob" 161 []).Protocol ≠ 160
    ∧ ((loginHandler parseKeySample verifyAlways "MOJ" 100 160 cfgSample managerWithBob 9
        (mkSamplePacket "Bob" 161 [])).actions.any SessionAction.isKick = false)
    ∧ (loginHandler parseKeySample verifyAlways "MOJ" 100 160 cfgSample managerWithBob 9
        (mkSamplePacket "Bob" 161 [])).manager = managerWithBob := by
  decide

/-! ## C3: multi-index coherence of the session manager -/

theorem alFind_alErase {α β : Type} [DecidableEq α] (k k0 : α) (m : List (α × β)) :
    alFind k (alErase k0 m) = if k = k0 then none else alFind k m := by
  induction m with
  | nil =>
    simp only [alErase, List.filter_nil, alFind]
    split <;> rfl
  | cons p rest ih =>
    simp only [alErase, List.filter_cons] at ih ⊢
    by_cases hp : p.1 = k0
    · have hdec : decide (p.1 ≠ k0) = false := by simp [hp]
      simp only [hdec, Bool.false_eq_true, if_false]
      rw [ih]
      by_cases hk : k = k0
      · rw [if_pos hk, if_pos hk]
      · rw [if_neg hk, if_neg hk]
        have hpk : ¬ p.1 = k := fun h => hk (by rw [← h, hp])
        simp only [alFind, if_neg hpk]
    · have hdec : decide (p.1 ≠ k0) = true := by simp [hp]
      simp only [hdec, if_true, alFind]
      by_cases hpk : p.1 = k
      · have hk : ¬ k = k0 := fun h => hp (by rw [hpk, h])
        rw [if_pos hpk, if_neg hk, if_pos hpk]
      · rw [if_neg hpk, ih, if_neg hpk]

theorem alFind_alInsert {α β : Type} [DecidableEq α] (k k0 : α) (v : β)
    (m : List (α × β)) :
    alFind k (alInsert k0 v m) = if k = k0 then some v else alFind k m := by
  simp only [alInsert, alFind]
  by_cases hk : k0 = k
  · rw [if_pos hk, if_pos hk.symm]
  · rw [if_neg hk, if_neg (fun h => hk h.symm)]
    have h := alFind_alErase (β := β) k k0 m
    rw [if_neg (fun h2 => hk h2.symm)] at h
    simpa only [alErase] using h

/-- One operation on the session manager. -/
inductive SessionOp where
  | add (s : MSession)
  | remove (s : MSession)
deriving DecidableEq

/-- Applies one operation. -/
def applyOp (m : SessionManager) : SessionOp → SessionManager
  | .add s => m.AddMinecraftSession s
  | .remove s => m.RemoveMinecraftSession s

/-- Runs a sequence of Add/Remove operations. -/
def runOps (m : SessionManager) (ops : List SessionOp) : SessionManager :=
  ops.foldl applyOp m

/-- The live-session set after one operation: an added session becomes
live (replacing any equal session), a removed one ceases to be live. -/
def liveStep (live : List MSession) : SessionOp → List MSession
  | .add s => s :: live.filter (fun t => decide (t ≠ s))
  | .remove s => live.filter (fun t => decide (t ≠ s))

/-- The live sessions after a sequence of operations. -/
def liveSessions (live : List MSession) (ops : List SessionOp) : List MSession :=
  ops.foldl liveStep live

/-- Two sessions differ in all four keys. -/
def keysDistinct (s t : MSession) : Prop :=
  s.name ≠ t.name ∧ s.uuid ≠ t.uuid ∧ s.xuid ≠ t.xuid ∧ s.transport ≠ t.transport

instance (s t : MSession) : Decidable (keysDistinct s t) := by
  unfold keysDistinct
  infer_instance

/-- A well-formed operation sequence relative to the current live set:
additions are key-fresh for every live session other than the session
itself, and removals concern a live session or one sharing no key with any
live session (so a removal never strips the keys of a different live
session). -/
def wfOps (live : List MSession) : List SessionOp → Bool
  | [] => true
  | .add s :: rest =>
    live.all (fun t => decide (t = s) || decide (keysDistinct s t))
      && wfOps (liveStep live (.add s)) rest
  | .remove s :: rest =>
    (live.contains s || live.all (fun t => decide (keysDistinct s t)))
      && wfOps (liveStep live (.remove s)) rest

/-- An index contains exactly the live sessions under the given key
projection: a lookup returns `t` precisely when `t` is live and keyed by
the looked-up key. -/
def IndexContains {κ : Type} [DecidableEq κ] (keyOf : MSession → κ)
    (idx : List (κ × MSession)) (live : List MSession) : Prop :=
  ∀ (k : κ) (t : MSession), alFind k idx = some t ↔ t ∈ live ∧ keyOf t = k

/-- All four indices contain exactly the live sessions under their
respective keys. -/
def ManagerCoherent (m : SessionManager) (live : List MSession) : Prop :=
  IndexContains (fun s => s.name) m.nameMap live
  ∧ IndexContains (fun s => s.uuid) m.uuidMap live
  ∧ IndexContains (fun s => s.xuid) m.xuidMap live
  ∧ IndexContains (fun s => s.transport) m.sessionMap live

/-- No two distinct live sessions share any of the four keys. -/
def NoSharedKeys (live : List MSession) : Prop :=
  ∀ s ∈ live, ∀ t ∈ live, s = t ∨ keysDistinct s t

instance (live : List MSession) : Decidable (NoSharedKeys live) := by
  unfold NoSharedKeys
  infer_instance

theorem IndexContains_insert {κ : Type} [DecidableEq κ] (keyOf : MSession → κ)
    (s : MSession) (idx : List (κ × MSession)) (live : List MSession)
    (hfresh : ∀ t ∈ live, t = s ∨ keyOf t ≠ keyOf s)
    (hidx : IndexContains keyOf idx live) :
    IndexContains keyOf (alInsert (keyOf s) s idx)
      (s :: live.filter (fun t => decide (t ≠ s))) := by
  intro k t
  rw [alFind_alInsert]
  constructor
  · intro h
    split at h
    · rename_i hk
      cases h
      exact ⟨List.mem_cons_self _ _, hk.symm⟩
    · rename_i hk
      obtain ⟨hmem, hkey⟩ := (hidx k t).mp h
      refine ⟨List.mem_cons_of_mem _ (List.mem_filter.mpr ⟨hmem, ?_⟩), hkey⟩
      have hne : t ≠ s := fun he => hk (by rw [← hkey, he])
      simpa using hne
  · rintro ⟨hmem, hkey⟩
    rcases List.mem_cons.mp hmem with he | hmem2
    · subst he
      rw [if_pos hkey.symm]
    · have hmem3 := (List.mem_filter.mp hmem2).1
      have hne : t ≠ s := by simpa using (List.mem_filter.mp hmem2).2
      have hk : k ≠ keyOf s := by
        intro hkk
        rcases hfresh t hmem3 with he | hne2
        · exact hne he
        · exact hne2 (by rw [hkey, hkk])
      rw [if_neg hk]
      exact (hidx k t).mpr ⟨hmem3, hkey⟩

theorem IndexContains_erase {κ : Type} [DecidableEq κ] (keyOf : MSession → κ)
    (s : MSession) (idx : List (κ × MSession)) (live : List MSession)
    (hcase : s ∈ live ∨ ∀ t ∈ live, keyOf t ≠ keyOf s)
    (hdisj : ∀ u ∈ live, ∀ t ∈ live, u = t ∨ keyOf u ≠ keyOf t)
    (hidx : IndexContains keyOf idx live) :
    IndexContains keyOf (alErase (keyOf s) idx)
      (live.filter (fun t => decide (t ≠ s))) := by
  intro k t
  rw [alFind_alErase]
  constructor
  · intro h
    split at h
    · exact absurd h (by simp)
    · rename_i hk
      obtain ⟨hmem, hkey⟩ := (hidx k t).mp h
      refine ⟨List.mem_filter.mpr ⟨hmem, ?_⟩, hkey⟩
      have hne : t ≠ s := fun he => hk (by rw [← hkey, he])
      simpa using hne
  · rintro ⟨hmem2, hkey⟩
    have hmem := (List.mem_filter.mp hmem2).1
    have hne : t ≠ s := by simpa using (List.mem_filter.mp hmem2).2
    have hk : k ≠ keyOf s := by
      intro hkk
      rcases hcase with hs | hall
      · rcases hdisj t hmem s hs with he | hne2
        · exact hne he
        · exact hne2 (by rw [hkey, hkk])
      · exact hall t hmem (by rw [hkey, hkk])
    rw [if_neg hk]
    exact (hidx k t).mpr ⟨hmem, hkey⟩

theorem keysDistinct_symm {s t : MSession} (h : keysDistinct s t) : keysDistinct t s := by
  obtain ⟨a, b, c, d⟩ := h
  exact ⟨a.symm, b.symm, c.symm, d.symm⟩

theorem noSharedKeys_filter (live : List MSession) (f : MSession → Bool)
    (h : NoSharedKeys live) : NoSharedKeys (live.filter f) := by
  intro u hu t ht
  exact h u (List.mem_filter.mp hu).1 t (List.mem_filter.mp ht).1

theorem noSharedKeys_add (live : List MSession) (s : MSession)
    (hfresh : ∀ t ∈ live, t = s ∨ keysDistinct s t)
    (h : NoSharedKeys live) :
    NoSharedKeys (s :: live.filter (fun t => decide (t ≠ s))) := by
  intro u hu t ht
  rcases List.mem_cons.mp hu with heu | hu2 <;> rcases List.mem_cons.mp ht with het | ht2
  · left; rw [heu, het]
  · rw [heu]
    have hmem := (List.mem_filter.mp ht2).1
    have hne : t ≠ s := by simpa using (List.mem_filter.mp ht2).2
    rcases hfresh t hmem with he | hd
    · exact absurd he hne
    · exact Or.inr hd
  · rw [het]
    have hmem := (List.mem_filter.mp hu2).1
    have hne : u ≠ s := by simpa using (List.mem_filter.mp hu2).2
    rcases hfresh u hmem with he | hd
    · exact absurd he hne
    · exact Or.inr (keysDistinct_symm hd)
  · exact h u (List.mem_filter.mp hu2).1 t (List.mem_filter.mp ht2).1

theorem runOps_coherent_aux : ∀ (ops : List SessionOp) (m : SessionManager)
    (live : List MSession), ManagerCoherent m live → NoSharedKeys live →
    wfOps live ops = true →
    ManagerCoherent (runOps m ops) (liveSessions live ops)
    ∧ NoSharedKeys (liveSessions live ops) := by
  intro ops
  induction ops with
  | nil =>
    intro m live hc hn _
    exact ⟨hc, hn⟩
  | cons op rest ih =>
    intro m live hc hn hwf
    obtain ⟨hc1, hc2, hc3, hc4⟩ := hc
    cases op with
    | add s =>
      simp only [wfOps, Bool.and_eq_true, List.all_eq_true, Bool.or_eq_true,
        decide_eq_true_eq] at hwf
      obtain ⟨hfreshb, hwf2⟩ := hwf
      have hfresh : ∀ t ∈ live, t = s ∨ keysDistinct s t := hfreshb
      have hstep : ManagerCoherent (applyOp m (.add s)) (liveStep live (.add s)) := by
        refine ⟨?_, ?_, ?_, ?_⟩ <;>
          apply IndexContains_insert <;>
          first
            | assumption
            | (intro t ht
               rcases hfresh t ht with he | hd
               · exact Or.inl he
               · exact Or.inr fun hk => absurd hk.symm
                   (by
                     first
                       | exact hd.1
                       | exact hd.2.1
                       | exact hd.2.2.1
                       | exact hd.2.2.2))
      have hn2 : NoSharedKeys (liveStep live (.add s)) := noSharedKeys_add live s hfresh hn
      have hrest := ih (applyOp m (.add s)) (liveStep live (.add s)) hstep hn2 hwf2
      simpa only [runOps, liveSessions, List.foldl_cons] using hrest
    | remove s =>
      simp only [wfOps, Bool.and_eq_true, Bool.or_eq_true, List.all_eq_true,
        decide_eq_true_eq] at hwf
      obtain ⟨hcaseb, hwf2⟩ := hwf
      have hmemcase : s ∈ live ∨ ∀ t ∈ live, keysDistinct s t := by
        rcases hcaseb with hb | hall
        · exact Or.inl (by simpa using hb)
        · exact Or.inr hall
      have hstep : ManagerCoherent (applyOp m (.remove s)) (liveStep live (.remove s)) := by
        refine ⟨?_, ?_, ?_, ?_⟩ <;>
          apply IndexContains_erase <;>
          first
            | assumption
            | (rcases hmemcase with hs | hall
               · exact Or.inl hs
               · refine Or.inr fun t ht hk => absurd hk.symm ?_
                 have hd := hall t ht
                 first
                   | exact hd.1
                   | exact hd.2.1
                   | exact hd.2.2.1
                   | exact hd.2.2.2)
            | (intro u hu t ht
               rcases hn u hu t ht with he | hd
               · exact Or.inl he
               · exact Or.inr
                   (by
                     first
                       | exact hd.1
                       | exact hd.2.1
                       | exact hd.2.2.1
                       | exact hd.2.2.2))
      have hn2 : NoSharedKeys (liveStep live (.remove s)) :=
        noSharedKeys_filter live _ hn
      have hrest := ih (applyOp m (.remove s)) (liveStep live (.remove s)) hstep hn2 hwf2
      simpa only [runOps, liveSessions, List.foldl_cons] using hrest

/-- C3 (amended): after any sequence of Add/Remove operations that is
well-formed — added sessions are key-fresh among the live sessions, and
removals concern a live session or one sharing no key with a live session —
each of the four indices contains exactly the set of live sessions under
the key of that index, and no two live sessions share a key in any index.  (The
unrestricted claim fails: see the counterexample with two live sessions
sharing a username.) -/
theorem c3_multi_index_coherence (ops : List SessionOp)
    (h : wfOps [] ops = true) :
    ManagerCoherent (runOps NewSessionManager ops) (liveSessions [] ops)
    ∧ NoSharedKeys (liveSessions [] ops) := by
  apply runOps_coherent_aux
  · refine ⟨?_, ?_, ?_, ?_⟩ <;> intro k t <;>
      simp [NewSessionManager, alFind, IndexContains]
  · intro u hu
    cases hu
  · exact h

/-- The session of a connected player named Alice. -/
def sAlice : MSession := ⟨"Alice", 3, "xAlice", 9⟩

/-- A second, distinct session also named Bob (same username key as
`sBob`, fresh UUID, XUID and transport). -/
def sBobClone : MSession := ⟨"Bob", 2, "xBob2", 8⟩

/-- Witness for `c3_multi_index_coherence`: add Bob, add Alice, remove Bob
is well-formed and leaves coherent indices. -/
theorem c3_multi_index_coherence_witness :
    wfOps [] [SessionOp.add sBob, SessionOp.add sAlice, SessionOp.remove sBob] = true
    ∧ (ManagerCoherent
        (runOps NewSessionManager
          [SessionOp.add sBob, SessionOp.add sAlice, SessionOp.remove sBob])
        (liveSessions [] [SessionOp.add sBob, SessionOp.add sAlice, SessionOp.remove sBob])
      ∧ NoSharedKeys
        (liveSessions []
          [SessionOp.add sBob, SessionOp.add sAlice, SessionOp.remove sBob])) :=
  ⟨by decide,
   c3_multi_index_coherence [SessionOp.add sBob, SessionOp.add sAlice, SessionOp.remove sBob]
     (by decide)⟩

/-- Counterexample to C3 as stated: after the operation sequence add
`sBob`, add `sBobClone` (two distinct sessions sharing the username key),
both sessions are live, two live sessions share a key, and the name index
no longer returns the live session `sBob` under its name — so it does not
contain exactly the set of live sessions, refuting the claim for arbitrary
Add/Remove sequences. -/
theorem c3_counterexample :
    sBob ∈ liveSessions [] [SessionOp.add sBob, SessionOp.add sBobClone]
    ∧ sBobClone ∈ liveSessions [] [SessionOp.add sBob, SessionOp.add sBobClone]
    ∧ sBob ≠ sBobClone
    ∧ (runOps NewSessionManager
        [SessionOp.add sBob, SessionOp.add sBobClone]).GetSession sBob.name ≠ some sBob
    ∧ ¬ (ManagerCoherent
          (runOps NewSessionManager [SessionOp.add sBob, SessionOp.add sBobClone])
          (liveSessions [] [SessionOp.add sBob, SessionOp.add sBobClone])
        ∧ NoSharedKeys (liveSessions [] [SessionOp.add sBob, SessionOp.add sBobClone])) := by
  refine ⟨by decide, by decide, by decide, by decide, fun hcl => absurd hcl.2 (by decide)⟩

/-! ## C8: Player.Tick and the value receiver (players/player.go)

`Player` embeds `*entities.Entity` — a pointer.  `Tick` is declared with a
value receiver (`func (player Player) Tick()`), so the outer `Player` struct
is copied, but the copy holds the same entity pointer; the dirty flags
`HasEntityDataUpdate` and `HasMovementUpdate` are fields of the pointed-to
entity, so clearing them writes through the shared pointer.  The embedding
makes the pointer explicit: a heap maps entity references to entity values,
a `Player` value holds an `entityRef`, and `Tick` returns the updated heap
together with the broadcasts it performed. -/

/-- The entity state reachable through the embedded pointer (the fields
`Tick` touches, plus representative kinematic state). -/
structure Entity where
  HasEntityDataUpdate : Bool
  HasMovementUpdate : Bool
  Position : Int × Int × Int
  OnGround : Bool
deriving DecidableEq

/-- The `players.Player` struct: the embedded entity pointer and the value
fields. -/
structure Player where
  entityRef : Nat
  uuid : Nat
  xuid : String
  platform : Int
  playerName : String
  displayName : String
  skinId : String
  skinData : List Nat
  capeData : List Nat
  geometryName : String
  geometryData : String
deriving DecidableEq

/-- The broadcasts `Tick` can perform. -/
inductive TickAction where
  | broadcastEntityData
  | broadcastMovement
deriving DecidableEq

/-- `Player.Tick`: if the entity-data-dirty flag is set, broadcast updated
entity data and clear it; clear the movement-dirty flag if set; then
broadcast movement unconditionally.  The receiver is a value copy, but the
flag writes go through the shared entity pointer, modelled by updating the
heap at `player.entityRef`. -/
def Player.Tick (player : Player) (heap : Nat → Entity) :
    (Nat → Entity) × List TickAction :=
  let e := heap player.entityRef
  let pair := if e.HasEntityDataUpdate then
      ([TickAction.broadcastEntityData], { e with HasEntityDataUpdate := false })
    else ([], e)
  let e2 := if pair.2.HasMovementUpdate then { pair.2 with HasMovementUpdate := false }
    else pair.2
  (fun r => if r = player.entityRef then e2 else heap r,
   pair.1 ++ [TickAction.broadcastMovement])

/-- C8 (amended): `Tick` receives the `Player` struct by value, but the
dirty flags live in the pointer-embedded entity, so the mutations are
visible to callers: after `Tick`, the shared entity has both dirty flags
cleared (its other fields unchanged), entity data was broadcast exactly
when it was dirty, movement was broadcast unconditionally, and every other
heap entry is untouched.  The `Player` value itself is unchanged, being a
pure input. -/
theorem c8_tick_mutations_visible (p : Player) (heap : Nat → Entity) :
    (((p.Tick heap).1 p.entityRef).HasEntityDataUpdate = false)
    ∧ (((p.Tick heap).1 p.entityRef).HasMovementUpdate = false)
    ∧ (((p.Tick heap).1 p.entityRef).Position = (heap p.entityRef).Position)
    ∧ (((p.Tick heap).1 p.entityRef).OnGround = (heap p.entityRef).OnGround)
    ∧ (p.Tick heap).2
      = (if (heap p.entityRef).HasEntityDataUpdate then [TickAction.broadcastEntityData]
         else []) ++ [TickAction.broadcastMovement]
    ∧ ∀ r, r ≠ p.entityRef → (p.Tick heap).1 r = heap r := by
  have hframe : ∀ r, r ≠ p.entityRef → (p.Tick heap).1 r = heap r := by
    intro r hr
    simp [Player.Tick, hr]
  refine ⟨?_, ?_, ?_, ?_, ?_, hframe⟩ <;>
    by_cases h1 : (heap p.entityRef).HasEntityDataUpdate <;>
    by_cases h2 : (heap p.entityRef).HasMovementUpdate <;>
    simp [Player.Tick, h1, h2]

/-- A dirty entity and a player pointing at it. -/
def entityDirty : Entity := ⟨true, true, (0, 7, 0), false⟩

/-- A heap with the dirty entity everywhere. -/
def heapSample : Nat → Entity := fun _ => entityDirty

/-- A sample player whose entity pointer is reference 0. -/
def playerSample : Player := ⟨0, 1, "xBob", 0, "Bob", "Bob", "skin", [], [], "geo", "gd"⟩

/-- Witness for `c8_tick_mutations_visible` at the sample player, with the
frame condition instantiated at the untouched reference 5. -/
theorem c8_tick_mutations_visible_witness :
    ((playerSample.Tick heapSample).1 playerSample.entityRef).HasEntityDataUpdate = false
    ∧ (playerSample.Tick heapSample).1 5 = heapSample 5 :=
  ⟨(c8_tick_mutations_visible playerSample heapSample).1,
   (c8_tick_mutations_visible playerSample heapSample).2.2.2.2.2 5 (by decide)⟩

/-- Counterexample to C8 as stated: for a player whose entity is dirty,
`Tick` clears the dirty flags through the shared entity pointer, so a
caller-visible field of the player (the entity-data-dirty flag read through
the pointer) differs after `Tick` — the mutations are not invisible to
callers. -/
theorem c8_counterexample :
    (heapSample playerSample.entityRef).HasEntityDataUpdate = true
    ∧ ((playerSample.Tick heapSample).1 playerSample.entityRef).HasEntityDataUpdate = false
    ∧ ((playerSample.Tick heapSample).1 playerSample.entityRef).HasMovementUpdate
        ≠ (heapSample playerSample.entityRef).HasMovementUpdate := by
  decide

/-! ## C7: characterizing the authenticated flag -/

/-- The sequence of verifying-key strings the loop would use: the first
token is keyed by its own `X5u` hint (when the incoming key string is
empty), each later token by the `IdentityPublicKey` of the previous token (or
its own `X5u` when that is empty). -/
def chainKeys (publicKeyRaw : String) : List Chain → List String
  | [] => []
  | c :: rest =>
    (if publicKeyRaw = "" then c.headerX5u else publicKeyRaw)
      :: chainKeys c.payloadIdentityPublicKey rest

/-- One token passes its verification step under key string `k`: the key
string is non-empty (the missing-`x5u` exit), parses, and the signature
verifies under the parsed key. -/
def chainStepOK (parseKey : String → Option String)
    (ecdsaVerify : String → String → String → Bool) (k : String) (c : Chain) : Bool :=
  !(k == "")
    && ((parseKey k).map
        (fun key => ecdsaVerify key (c.headerRaw ++ "." ++ c.payloadRaw) c.signature)).getD
      false

/-- A default token for positional lookups. -/
def dfltChain : Chain := ⟨"", "", "", 0, 0, 0, "", ""⟩

theorem verifyChainLoop_auth_true (parseKey : String → Option String)
    (ecdsaVerify : String → String → String → Bool) (mojang : String) (now : Int) :
    ∀ (chains : List Chain) (pkRaw : String),
    (verifyChainLoop parseKey ecdsaVerify mojang now pkRaw true chains).2.1 = true := by
  intro chains
  induction chains with
  | nil =>
    intro pkRaw
    unfold verifyChainLoop
    rcases parseKey pkRaw with _ | key <;> rfl
  | cons c rest ih =>
    intro pkRaw
    unfold verifyChainLoop
    split
    · rfl
    · split
      · rfl
      · rename_i key hp
        by_cases hv : ecdsaVerify key (c.headerRaw ++ "." ++ c.payloadRaw) c.signature = true
        · rw [if_pos hv]
          by_cases ht : chainTimeFails now c
          · rw [if_pos ht, ite_self]
          · rw [if_neg ht, ite_self]
            exact ih c.payloadIdentityPublicKey
        · rw [if_neg hv]

theorem verifyChainLoop_auth_iff (parseKey : String → Option String)
    (ecdsaVerify : String → String → String → Bool) (mojang : String) (now : Int) :
    ∀ (chains : List Chain) (pkRaw : String),
    ((verifyChainLoop parseKey ecdsaVerify mojang now pkRaw false chains).2.1 = true)
    ↔ ∃ i, i < chains.length
        ∧ (chainKeys pkRaw chains).getD i "" = mojang
        ∧ (∀ j, j ≤ i → chainStepOK parseKey ecdsaVerify
            ((chainKeys pkRaw chains).getD j "") (chains.getD j dfltChain) = true)
        ∧ (∀ j, j < i → ¬ chainTimeFails now (chains.getD j dfltChain)) := by
  intro chains
  induction chains with
  | nil =>
    intro pkRaw
    unfold verifyChainLoop
    rcases parseKey pkRaw with _ | key <;> simp
  | cons c rest ih =>
    intro pkRaw
    by_cases hguard : pkRaw = "" ∧ c.headerX5u = ""
    · apply iff_of_false
      · intro h
        unfold verifyChainLoop at h
        rw [if_pos hguard] at h
        simp at h
      · rintro ⟨i, hi, hmoj, hsteps, htimes⟩
        have h0 := hsteps 0 (Nat.zero_le i)
        simp only [chainKeys, List.getD_cons_zero] at h0
        rw [if_pos hguard.1, hguard.2] at h0
        simp [chainStepOK] at h0
    · have hKne : (if pkRaw = "" then c.headerX5u else pkRaw) ≠ "" := by
        by_cases hpk : pkRaw = ""
        · rw [if_pos hpk]
          intro hx
          exact hguard ⟨hpk, hx⟩
        · rw [if_neg hpk]
          exact hpk
      rcases hp : parseKey (if pkRaw = "" then c.headerX5u else pkRaw) with _ | key
      · apply iff_of_false
        · intro h
          unfold verifyChainLoop at h
          rw [if_neg hguard, hp] at h
          simp at h
        · rintro ⟨i, hi, hmoj, hsteps, htimes⟩
          have h0 := hsteps 0 (Nat.zero_le i)
          simp only [chainKeys, List.getD_cons_zero] at h0
          simp [chainStepOK, hp] at h0
      · by_cases hv : ecdsaVerify key (c.headerRaw ++ "." ++ c.payloadRaw) c.signature = true
        · have hstep0 : chainStepOK parseKey ecdsaVerify
              (if pkRaw = "" then c.headerX5u else pkRaw) c = true := by
            simp [chainStepOK, hp, hKne, hv]
          by_cases hm : (if pkRaw = "" then c.headerX5u else pkRaw) = mojang
          · apply iff_of_true
            · unfold verifyChainLoop
              rw [if_neg hguard, hp]
              simp only []
              rw [if_pos hv, if_pos hm]
              by_cases ht : chainTimeFails now c
              · rw [if_pos ht]
              · rw [if_neg ht]
                exact verifyChainLoop_auth_true parseKey ecdsaVerify mojang now rest
                  c.payloadIdentityPublicKey
            · refine ⟨0, by simp, ?_, ?_, ?_⟩
              · simpa [chainKeys] using hm
              · intro j hj
                have hj0 : j = 0 := Nat.le_zero.mp hj
                subst hj0
                simpa [chainKeys] using hstep0
              · intro j hj
                exact absurd hj (Nat.not_lt_zero j)
          · by_cases ht : chainTimeFails now c
            · apply iff_of_false
              · intro h
                unfold verifyChainLoop at h
                rw [if_neg hguard, hp] at h
                simp only [] at h
                rw [if_pos hv, if_neg hm, if_pos ht] at h
                simp at h
              · rintro ⟨i, hi, hmoj, hsteps, htimes⟩
                rcases i with _ | i2
                · simp only [chainKeys, List.getD_cons_zero] at hmoj
                  exact hm hmoj
                · have h1 := htimes 0 (Nat.succ_pos i2)
                  simp only [List.getD_cons_zero] at h1
                  exact h1 ht
            · unfold verifyChainLoop
              rw [if_neg hguard, hp]
              simp only []
              rw [if_pos hv, if_neg hm, if_neg ht, ih c.payloadIdentityPublicKey]
              constructor
              · rintro ⟨i, hi, hmoj, hsteps, htimes⟩
                refine ⟨i + 1, by simp only [List.length_cons]; omega, ?_, ?_, ?_⟩
                · simpa [chainKeys, List.getD_cons_succ] using hmoj
                · intro j hj
                  rcases j with _ | j2
                  · simpa [chainKeys, List.getD_cons_zero] using hstep0
                  · have h2 := hsteps j2 (Nat.succ_le_succ_iff.mp hj)
                    simpa [chainKeys, List.getD_cons_succ] using h2
                · intro j hj
                  rcases j with _ | j2
                  · simpa [List.getD_cons_zero] using ht
                  · have h2 := htimes j2 (Nat.succ_lt_succ_iff.mp hj)
                    simpa [List.getD_cons_succ] using h2
              · rintro ⟨i, hi, hmoj, hsteps, htimes⟩
                rcases i with _ | i2
                · simp only [chainKeys, List.getD_cons_zero] at hmoj
                  exact absurd hmoj hm
                · refine ⟨i2, by simp only [List.length_cons] at hi; omega, ?_, ?_, ?_⟩
                  · simpa [chainKeys, List.getD_cons_succ] using hmoj
                  · intro j hj
                    have h2 := hsteps (j + 1) (Nat.succ_le_succ hj)
                    simpa [chainKeys, List.getD_cons_succ] using h2
                  · intro j hj
                    have h2 := htimes (j + 1) (Nat.succ_lt_succ hj)
                    simpa [List.getD_cons_succ] using h2
        · apply iff_of_false
          · intro h
            unfold verifyChainLoop at h
            rw [if_neg hguard, hp] at h
            simp only [] at h
            rw [if_neg hv] at h
            simp at h
          · rintro ⟨i, hi, hmoj, hsteps, htimes⟩
            have h0 := hsteps 0 (Nat.zero_le i)
            simp only [chainKeys, List.getD_cons_zero] at h0
            simp [chainStepOK, hp, hv] at h0

/-- C7 (amended): `VerifyLoginRequest` returns `authenticated = true` iff
the sequential verification reaches a token whose verifying-key string is
the Mojang root public key: there is an index `i` such that token `i` is
keyed by the Mojang root key and passes signature verification, every
earlier token also passes signature verification under its chained key, and
every earlier token passes the time-window checks.  (A Mojang-signed token
behind an earlier failing token is not reached and does not authenticate:
see the counterexample.) -/
theorem c7_authenticated_characterization (parseKey : String → Option String)
    (ecdsaVerify : String → String → String → Bool) (mojang : String) (now : Int)
    (chains : List Chain) :
    ((VerifyLoginRequest parseKey ecdsaVerify mojang now chains).2.1 = true)
    ↔ ∃ i, i < chains.length
        ∧ (chainKeys "" chains).getD i "" = mojang
        ∧ (∀ j, j ≤ i → chainStepOK parseKey ecdsaVerify
            ((chainKeys "" chains).getD j "") (chains.getD j dfltChain) = true)
        ∧ (∀ j, j < i → ¬ chainTimeFails now (chains.getD j dfltChain)) :=
  verifyChainLoop_auth_iff parseKey ecdsaVerify mojang now chains ""

/-- A token is signed by (verifies under) the well-known Mojang root public
key: the Mojang key string parses and the token signature verifies under
the parsed key. -/
def signedByMojangRoot (parseKey : String → Option String)
    (ecdsaVerify : String → String → String → Bool) (mojang : String)
    (c : Chain) : Bool :=
  match parseKey mojang with
  | none => false
  | some key => ecdsaVerify key (c.headerRaw ++ "." ++ c.payloadRaw) c.signature

/-- First sample token: keyed by `K1`, correctly signed, but expired
(expiration time 1, checked at time 100). -/
def chainExpired : Chain := ⟨"K1", "h1", "p1", 1, 0, 0, "K2", "s1"⟩

/-- Second sample token: signed by the Mojang root key. -/
def chainMojang : Chain := ⟨"", "h2", "p2", 0, 0, 0, "CK", "s2"⟩

/-- Sample verifier accepting exactly the two sample signatures: token one
under `K1`, token two under the Mojang root key `MOJ`. -/
def verifyTable : String → String → String → Bool := fun k d s =>
  (k == "K1" && d == "h1.p1" && s == "s1") || (k == "MOJ" && d == "h2.p2" && s == "s2")

/-- Counterexample to C7 as stated: in the chain `[chainExpired,
chainMojang]` some token (the second) is signed by the Mojang root key, yet
`VerifyLoginRequest` returns `authenticated = false`, because the first
token expires and the loop exits before reaching the Mojang-signed token —
refuting the claimed equivalence. -/
theorem c7_counterexample :
    (VerifyLoginRequest parseKeySample verifyTable "MOJ" 100
      [chainExpired, chainMojang]).2.1 = false
    ∧ [chainExpired, chainMojang].any
        (signedByMojangRoot parseKeySample verifyTable "MOJ") = true := by
  decide

/-- A single correctly chained Mojang-rooted token. -/
def chainMojangOnly : Chain := ⟨"MOJ", "h2", "p2", 0, 0, 0, "CK", "s2"⟩

/-- Witness for `c7_authenticated_characterization`: a correctly chained
Mojang-rooted chain yields `authenticated = true`, obtained by applying the
characterization at index 0. -/
theorem c7_authenticated_characterization_witness :
    (VerifyLoginRequest parseKeySample verifyTable "MOJ" 100 [chainMojangOnly]).2.1 = true := by
  apply (c7_authenticated_characterization parseKeySample verifyTable "MOJ" 100
    [chainMojangOnly]).mpr
  refine ⟨0, by decide, by decide, ?_, ?_⟩
  · intro j hj
    have hj0 : j = 0 := Nat.le_zero.mp hj
    subst hj0
    decide
  · intro j hj
    exact absurd hj (Nat.not_lt_zero j)
